import Mathlib

/-!
Verification development for the `react-native-markdown-parser` repository
(`src/components/MarkdownParser.tsx`).  The component registers four inline
tokenizer extensions on the external `marked` lexer, normalizes line endings,
and maps the resulting token tree to a tree of React Native primitives through
the mutually recursive helpers `renderToken`, `renderInlineTokens` and
`renderListItems`, the whole pass being wrapped in an `ErrorBoundary`.

The shallow embedding below models the token shapes produced by `marked`
(restricted to the fields the renderer reads), the render-tree builder as a
total Lean function returning `Except Unit` (an exception raised while
building, such as mapping over a `null` table header, is the `.error` case),
the `console.warn` diagnostics of the default dispatch branch, and the two
custom inline recognizers (`superscript`, `subscript`) whose match rules are
the anchored patterns `/^\^([^^]+)\^/` and `/^~([^~]+)~/`.
-/

/-- Tokens as produced by the `marked` lexer with the component's extensions,
restricted to the fields the renderer reads (`type`, `text`, `tokens`,
`href`, `depth`, `ordered`, `start`, `items`, `task`, `checked`, `header`,
`rows`).  A table cell is modeled by its `tokens` field, the only field the
table branch reads (`cell.tokens`); the table `header` is `Option`-valued
because the JavaScript field may be `null`, in which case `token.header.map`
throws.  `listItem` is marked's `list_item` token, which has no case in
`renderToken`'s dispatch switch.  `unknown ty` stands for any token whose
`type` string `ty` is outside the dispatch table, reaching the `default`
branch. -/
inductive Token where
  | heading (depth : Nat) (tokens : List Token)
  | paragraph (tokens : List Token)
  | text (text : String) (tokens : Option (List Token))
  | strong (text : String) (tokens : Option (List Token))
  | em (text : String) (tokens : Option (List Token))
  | del (text : String) (tokens : Option (List Token))
  | codespan (text : String)
  | link (href : String) (text : String) (tokens : Option (List Token))
  | image (href : String) (text : String)
  | video (href : String)
  | blockquote (tokens : List Token)
  | list (ordered : Bool) (start : Nat) (items : List Token)
  | listItem (task : Bool) (checked : Bool) (tokens : List Token)
  | table (header : Option (List (List Token))) (rows : List (List (List Token)))
  | code (text : String)
  | hr
  | br
  | space
  | footnote (text : String)
  | superscript (text : String)
  | subscript (text : String)
  | unknown (ty : String)

/-- The `type` string of a token, as `marked` names the kinds; used by the
diagnostic of the default dispatch branch. -/
def Token.typeName : Token → String
  | .heading _ _ => "heading"
  | .paragraph _ => "paragraph"
  | .text _ _ => "text"
  | .strong _ _ => "strong"
  | .em _ _ => "em"
  | .del _ _ => "del"
  | .codespan _ => "codespan"
  | .link _ _ _ => "link"
  | .image _ _ => "image"
  | .video _ => "video"
  | .blockquote _ => "blockquote"
  | .list _ _ _ => "list"
  | .listItem _ _ _ => "list_item"
  | .table _ _ => "table"
  | .code _ => "code"
  | .hr => "hr"
  | .br => "br"
  | .space => "space"
  | .footnote _ => "footnote"
  | .superscript _ => "superscript"
  | .subscript _ => "subscript"
  | .unknown ty => ty

/-- The filter predicate `t.type === "list"` used by `renderListItems` to
split an item's tokens into nested lists and inline content. -/
def Token.isList : Token → Bool
  | .list _ _ _ => true
  | _ => false

/-- JavaScript property access `item.task` (`undefined`, hence falsy, on
tokens that carry no such field). -/
def itemTask : Token → Bool
  | .listItem task _ _ => task
  | _ => false

/-- JavaScript property access `item.checked`. -/
def itemChecked : Token → Bool
  | .listItem _ checked _ => checked
  | _ => false

/-- JavaScript property access `item.tokens` followed by the `?. ... || []`
defaulting used in `renderListItems`. -/
def itemTokens : Token → List Token
  | .listItem _ _ tokens => tokens
  | _ => []

/-- JavaScript property access `listToken.items`. -/
def listItemsOf : Token → List Token
  | .list _ _ items => items
  | _ => []

/-- JavaScript property access `listToken.ordered`. -/
def listOrdered : Token → Bool
  | .list ordered _ _ => ordered
  | _ => false

/-- Text-node style slots of the render tree: one per `<Text>` use site in
the component (with the data baked into the style where the component
computes it, such as the heading font size and the link target). -/
inductive TextSlot where
  | heading (fontSize : Nat)
  | paragraph
  | strong
  | em
  | del
  | codespan
  | link (href : String) (label : String)
  | codeText
  | listitem
  | tableHeaderCell
  | tableCell
  | footnote
  | superscript
  | subscript
  | errorText

/-- View-node style slots of the render tree: one per `<View>`/`<ScrollView>`
use site, with the computed `marginLeft` where the component computes one. -/
inductive ViewSlot where
  | videoBox
  | blockquote
  | list
  | listitemContainer (marginLeft : Nat)
  | nestedList (marginLeft : Nat)
  | table
  | tableRow
  | codeBlock
  | hr
  | br
  | space
  | scroll

/-- Render nodes: the UI-primitive descriptors the builder produces.  `str`
is a raw string child (what the `text`/`codespan` cases contribute inside a
parent `<Text>`), `textN`/`viewN` are styled `<Text>`/`<View>` containers,
`imageN`/`videoN` the media leaves. -/
inductive RNode where
  | str (s : String)
  | textN (slot : TextSlot) (children : List RNode)
  | imageN (href : String) (label : String)
  | videoN (href : String)
  | viewN (slot : ViewSlot) (children : List RNode)

/-- Font size lookup of the `heading` case:
`{1: 32, 2: 28, 3: 24, 4: 20, 5: 16, 6: 14}[token.depth] ?? 14`. -/
def headingFontSize (depth : Nat) : Nat :=
  if depth = 1 then 32
  else if depth = 2 then 28
  else if depth = 3 then 24
  else if depth = 4 then 20
  else if depth = 5 then 16
  else if depth = 6 then 14
  else 14

mutual

/-- Termination weight of a token (strictly dominates the weight of every
list the renderer recurses into from that token, including the synthesized
singleton `[{type: "text", text: token.text}]` of the `strong`/`em`/`del`/
`link` cases, whose weight is 2). -/
def Token.w : Token → Nat
  | .heading _ tokens => 1 + wList tokens
  | .paragraph tokens => 1 + wList tokens
  | .text _ tokens => 1 + wOpt tokens
  | .strong _ tokens => 4 + wOpt tokens
  | .em _ tokens => 4 + wOpt tokens
  | .del _ tokens => 4 + wOpt tokens
  | .codespan _ => 1
  | .link _ _ tokens => 4 + wOpt tokens
  | .image _ _ => 1
  | .video _ => 1
  | .blockquote tokens => 1 + wList tokens
  | .list _ _ items => 1 + wList items
  | .listItem _ _ tokens => 1 + wList tokens
  | .table header rows => 1 + wOptCells header + wRows rows
  | .code _ => 1
  | .hr => 1
  | .br => 1
  | .space => 1
  | .footnote _ => 1
  | .superscript _ => 1
  | .subscript _ => 1
  | .unknown _ => 1

/-- Weight of a token list. -/
def wList : List Token → Nat
  | [] => 0
  | t :: ts => 1 + Token.w t + wList ts

/-- Weight of an optional token list. -/
def wOpt : Option (List Token) → Nat
  | none => 0
  | some l => 1 + wList l

/-- Weight of a cell list (a cell being its token list). -/
def wCells : List (List Token) → Nat
  | [] => 0
  | c :: cs => 1 + wList c + wCells cs

/-- Weight of an optional cell list. -/
def wOptCells : Option (List (List Token)) → Nat
  | none => 0
  | some cs => 1 + wCells cs

/-- Weight of a row list. -/
def wRows : List (List (List Token)) → Nat
  | [] => 0
  | r :: rs => 1 + wCells r + wRows rs

end

theorem wList_filter_le (p : Token → Bool) :
    (l : List Token) → wList (l.filter p) ≤ wList l
  | [] => Nat.le_refl _
  | t :: ts => by
      have ih := wList_filter_le p ts
      simp only [List.filter]
      cases p t <;> simp [wList] <;> omega

theorem wList_itemTokens_lt (t : Token) : wList (itemTokens t) < Token.w t := by
  cases t <;> simp [itemTokens, Token.w, wList, wOpt]

theorem wList_listItemsOf_lt (t : Token) : wList (listItemsOf t) < Token.w t := by
  cases t <;> simp [listItemsOf, Token.w, wList, wOpt]

theorem wList_filter_item_bound (p : Token → Bool) (it : Token) (r : List Token) :
    wList (List.filter p (itemTokens it)) < wList (it :: r) := by
  have h1 := wList_filter_le p (itemTokens it)
  have h2 := wList_itemTokens_lt it
  simp [wList]
  omega

theorem wList_listItemsOf_bound (lt : Token) (r : List Token) :
    wList (listItemsOf lt) < wList (lt :: r) := by
  have h1 := wList_listItemsOf_lt lt
  simp [wList]
  omega

mutual

/-- The component's `renderToken(token, index)` dispatch.  Returns
`.ok none` where the JavaScript returns `null` (the `default` branch),
`.ok (some node)` for a produced node, and `.error ()` where the JavaScript
would throw (a `table` token with a `null` `header` reaches
`token.header.map`, a `TypeError`).  The `strong`/`em`/`del`/`link` cases
recurse into `token.tokens || [{ type: "text", text: token.text }]`. -/
def renderToken : Token → Except Unit (Option RNode)
  | .heading depth tokens =>
      match renderInlineTokens tokens with
      | .error e => .error e
      | .ok children => .ok (some (.textN (.heading (headingFontSize depth)) children))
  | .paragraph tokens =>
      match renderInlineTokens tokens with
      | .error e => .error e
      | .ok children => .ok (some (.textN .paragraph children))
  | .text txt _ => .ok (some (.str txt))
  | .strong txt tokens =>
      match renderInlineTokens (tokens.getD [Token.text txt none]) with
      | .error e => .error e
      | .ok children => .ok (some (.textN .strong children))
  | .em txt tokens =>
      match renderInlineTokens (tokens.getD [Token.text txt none]) with
      | .error e => .error e
      | .ok children => .ok (some (.textN .em children))
  | .del txt tokens =>
      match renderInlineTokens (tokens.getD [Token.text txt none]) with
      | .error e => .error e
      | .ok children => .ok (some (.textN .del children))
  | .codespan txt => .ok (some (.textN .codespan [.str txt]))
  | .link href txt tokens =>
      match renderInlineTokens (tokens.getD [Token.text txt none]) with
      | .error e => .error e
      | .ok children => .ok (some (.textN (.link href txt) children))
  | .image href txt => .ok (some (.imageN href txt))
  | .video href => .ok (some (.viewN .videoBox [.videoN href]))
  | .blockquote tokens =>
      match renderInlineTokens tokens with
      | .error e => .error e
      | .ok children => .ok (some (.viewN .blockquote children))
  | .list ordered _ items =>
      match renderListItems items ordered 0 0 with
      | .error e => .error e
      | .ok children => .ok (some (.viewN .list children))
  | .table none _ => .error ()
  | .table (some header) rows =>
      match renderHeaderCells header with
      | .error e => .error e
      | .ok headerCells =>
        match renderRows rows with
        | .error e => .error e
        | .ok bodyRows =>
            .ok (some (.viewN .table (.viewN .tableRow headerCells :: bodyRows)))
  | .code txt => .ok (some (.viewN .codeBlock [.textN .codeText [.str txt]]))
  | .hr => .ok (some (.viewN .hr []))
  | .br => .ok (some (.viewN .br []))
  | .space => .ok (some (.viewN .space []))
  | .footnote txt => .ok (some (.textN .footnote [.str "[", .str txt, .str "]"]))
  | .superscript txt => .ok (some (.textN .superscript [.str txt]))
  | .subscript txt => .ok (some (.textN .subscript [.str txt]))
  | .listItem _ _ _ => .ok none
  | .unknown _ => .ok none
termination_by t => Token.w t
decreasing_by
  all_goals simp [Token.w, wList, wOpt, wCells, wOptCells, wRows]
  all_goals try omega
  all_goals cases tokens <;> simp [Option.getD, wList, wOpt, Token.w] <;> omega

/-- The component's `renderInlineTokens`: maps each child through
`renderToken` — except that a `text` child that itself carries `tokens` is
expanded in place through a recursive `renderInlineTokens` call — and
flattens the result (`.flat()`); a `null` result contributes no child to the
enclosing `<Text>`. -/
def renderInlineTokens : List Token → Except Unit (List RNode)
  | [] => .ok []
  | .text txt (some sub) :: ts =>
      match renderInlineTokens sub with
      | .error e => .error e
      | .ok head =>
        match renderInlineTokens ts with
        | .error e => .error e
        | .ok tail => .ok (head ++ tail)
  | t :: ts =>
      match renderToken t with
      | .error e => .error e
      | .ok o =>
        match renderInlineTokens ts with
        | .error e => .error e
        | .ok tail => .ok (o.toList ++ tail)
termination_by ts => wList ts
decreasing_by
  all_goals simp [Token.w, wList, wOpt]
  all_goals omega

/-- The component's `renderListItems(items, ordered, level)` with the
`items.map` position made explicit as `idx` (0 at every call site): computes
the bullet prefix, splits `item.tokens` into nested `list` tokens and
content tokens, renders the content inline behind the bullet inside one
`<Text style=listitem>`, and renders each nested list at `level + 1` inside
a `marginLeft: 20` container, the whole item sitting in a
`marginLeft: 10 * level` container. -/
def renderListItems : List Token → Bool → Nat → Nat → Except Unit (List RNode)
  | [], _, _, _ => .ok []
  | item :: rest, ordered, level, idx =>
      let bullet :=
        if ordered then toString (idx + 1) ++ ". "
        else if itemTask item then (if itemChecked item then "☑ " else "☐ ")
        else "• "
      match renderInlineTokens ((itemTokens item).filter (fun t => !t.isList)) with
      | .error e => .error e
      | .ok inlineContent =>
        match renderNestedLists ((itemTokens item).filter (fun t => t.isList)) level with
        | .error e => .error e
        | .ok nested =>
          match renderListItems rest ordered level (idx + 1) with
          | .error e => .error e
          | .ok tail =>
              .ok (.viewN (.listitemContainer (10 * level))
                     (.textN .listitem (.str bullet :: inlineContent) :: nested) :: tail)
termination_by items _ _ _ => wList items
decreasing_by
  all_goals simp [wList]
  all_goals try omega
  all_goals first
    | (have h1 := wList_filter_le (fun t => !t.isList) (itemTokens item)
       have h2 := wList_itemTokens_lt item
       omega)
    | (have h1 := wList_filter_le (fun t => t.isList) (itemTokens item)
       have h2 := wList_itemTokens_lt item
       omega)

/-- The `nestedLists.map` of `renderListItems`: each nested `list` token is
rendered by recursing into `renderListItems(listToken.items,
listToken.ordered, level + 1)` inside a `marginLeft: 20` `nestedList`
container. -/
def renderNestedLists : List Token → Nat → Except Unit (List RNode)
  | [], _ => .ok []
  | listToken :: ts, level =>
      match renderListItems (listItemsOf listToken) (listOrdered listToken) (level + 1) 0 with
      | .error e => .error e
      | .ok inner =>
        match renderNestedLists ts level with
        | .error e => .error e
        | .ok tail => .ok (.viewN (.nestedList 20) inner :: tail)
termination_by ts _ => wList ts
decreasing_by
  all_goals simp [wList]
  all_goals try omega
  all_goals (have h1 := wList_listItemsOf_lt listToken; omega)

/-- The `token.header.map` of the `table` case: one `<Text>` cell per header
cell, rendering `cell.tokens` inline. -/
def renderHeaderCells : List (List Token) → Except Unit (List RNode)
  | [] => .ok []
  | cell :: cells =>
      match renderInlineTokens cell with
      | .error e => .error e
      | .ok children =>
        match renderHeaderCells cells with
        | .error e => .error e
        | .ok tail => .ok (.textN .tableHeaderCell children :: tail)
termination_by cells => wCells cells
decreasing_by
  all_goals simp [wCells] <;> omega

/-- The `row.map` of the `table` case: one `<Text>` cell per cell of the
source row. -/
def renderRowCells : List (List Token) → Except Unit (List RNode)
  | [] => .ok []
  | cell :: cells =>
      match renderInlineTokens cell with
      | .error e => .error e
      | .ok children =>
        match renderRowCells cells with
        | .error e => .error e
        | .ok tail => .ok (.textN .tableCell children :: tail)
termination_by cells => wCells cells
decreasing_by
  all_goals simp [wCells] <;> omega

/-- The `token.rows.map` of the `table` case: one `tableRow` `<View>` per
source row, in source order. -/
def renderRows : List (List (List Token)) → Except Unit (List RNode)
  | [] => .ok []
  | row :: rows =>
      match renderRowCells row with
      | .error e => .error e
      | .ok cells =>
        match renderRows rows with
        | .error e => .error e
        | .ok tail => .ok (.viewN .tableRow cells :: tail)
termination_by rows => wRows rows
decreasing_by
  all_goals simp [wRows, wCells] <;> omega

end

/-- The top-level `tokens.map((token, index) => renderToken(token, index))`
inside the `<ScrollView>`; a `null` result contributes no child. -/
def renderDocTokens : List Token → Except Unit (List RNode)
  | [] => .ok []
  | t :: ts =>
      match renderToken t with
      | .error e => .error e
      | .ok o =>
        match renderDocTokens ts with
        | .error e => .error e
        | .ok tail => .ok (o.toList ++ tail)

/-- The rendered component.  `MarkdownParser` returns an `ErrorBoundary`
element around the `<ScrollView>`, but the children expression
`tokens.map((token, index) => renderToken(token, index))` is evaluated
during `MarkdownParser`'s own render, while the boundary element is being
constructed.  A React error boundary catches only exceptions raised in the
renders of components below it in the tree, so an exception raised here
(for example the `TypeError` from `token.header.map` on a null table
header) is thrown by `MarkdownParser` itself and propagates past this
boundary uncaught: no fallback node is rendered, modeled as the `.error`
result.  The boundary's fallback
`<Text style=error>Error rendering Markdown</Text>` would be produced only
for exceptions raised later, in a descendant's render, which none of the
built nodes do. -/
def markdownParser (tokens : List Token) : Except Unit RNode :=
  match renderDocTokens tokens with
  | .ok children => .ok (.viewN .scroll children)
  | .error e => .error e

mutual

/-- The `console.warn` diagnostics emitted while `renderToken` processes a
token: only the `default` branch warns
(`Unsupported token type: ${token.type}`), so the collector simply mirrors
the recursion of the builder.  The `table`-with-`null`-header case throws
before reaching any cell, emitting nothing. -/
def warnToken : Token → List String
  | .heading _ tokens => warnInline tokens
  | .paragraph tokens => warnInline tokens
  | .text _ _ => []
  | .strong txt tokens => warnInline (tokens.getD [Token.text txt none])
  | .em txt tokens => warnInline (tokens.getD [Token.text txt none])
  | .del txt tokens => warnInline (tokens.getD [Token.text txt none])
  | .codespan _ => []
  | .link _ txt tokens => warnInline (tokens.getD [Token.text txt none])
  | .image _ _ => []
  | .video _ => []
  | .blockquote tokens => warnInline tokens
  | .list _ _ items => warnItems items
  | .table none _ => []
  | .table (some header) rows => warnCells header ++ warnRowsFn rows
  | .code _ => []
  | .hr => []
  | .br => []
  | .space => []
  | .footnote _ => []
  | .superscript _ => []
  | .subscript _ => []
  | .listItem task checked tokens =>
      ["Unsupported token type: " ++ Token.typeName (.listItem task checked tokens)]
  | .unknown ty => ["Unsupported token type: " ++ ty]
termination_by t => Token.w t
decreasing_by
  all_goals simp [Token.w, wList, wOpt, wCells, wOptCells, wRows]
  all_goals try omega
  all_goals cases tokens <;> simp [Option.getD, wList, wOpt, Token.w] <;> omega

/-- Diagnostics of `renderInlineTokens`. -/
def warnInline : List Token → List String
  | [] => []
  | .text _ (some sub) :: ts => warnInline sub ++ warnInline ts
  | t :: ts => warnToken t ++ warnInline ts
termination_by ts => wList ts
decreasing_by
  all_goals simp [Token.w, wList, wOpt]
  all_goals omega

/-- Diagnostics of `renderListItems`. -/
def warnItems : List Token → List String
  | [] => []
  | item :: rest =>
      warnInline ((itemTokens item).filter (fun t => !t.isList)) ++
      warnNested ((itemTokens item).filter (fun t => t.isList)) ++
      warnItems rest
termination_by items => wList items
decreasing_by
  all_goals first
    | exact wList_filter_item_bound _ _ _
    | (simp [wList]; try omega)

/-- Diagnostics of the nested-list views of `renderListItems`. -/
def warnNested : List Token → List String
  | [] => []
  | listToken :: ts => warnItems (listItemsOf listToken) ++ warnNested ts
termination_by ts => wList ts
decreasing_by
  all_goals first
    | exact wList_listItemsOf_bound _ _
    | (simp [wList]; try omega)

/-- Diagnostics of a cell list of a `table`. -/
def warnCells : List (List Token) → List String
  | [] => []
  | cell :: cells => warnInline cell ++ warnCells cells
termination_by cells => wCells cells
decreasing_by
  all_goals simp [wCells] <;> omega

/-- Diagnostics of the body rows of a `table`. -/
def warnRowsFn : List (List (List Token)) → List String
  | [] => []
  | row :: rows => warnCells row ++ warnRowsFn rows
termination_by rows => wRows rows
decreasing_by
  all_goals simp [wRows, wCells] <;> omega

end

/-- Diagnostics of the whole top-level render pass. -/
def warnDoc : List Token → List String
  | [] => []
  | t :: ts => warnToken t ++ warnDoc ts

/-! ### The custom inline recognizers

`marked.use` registers four inline extensions.  The two the claims are about
are `superscript` (match rule the anchored regular expression
`/^\^([^^]+)\^/`) and `subscript` (match rule `/^~([^~]+)~/`).  In both, the
capture group is a greedy non-empty run of characters excluding the marker
character, followed by a closing marker; the token's `raw` is the whole
match and its `text` is the trimmed capture. -/

/-- The token object returned by a successful extension tokenizer call. -/
structure ExtToken where
  type : String
  raw : String
  text : String
deriving Repr, DecidableEq

/-- JavaScript `String.prototype.trim` on a character list: strips leading
and trailing whitespace. -/
def trimChars (l : List Char) : List Char :=
  ((l.dropWhile Char.isWhitespace).reverse.dropWhile Char.isWhitespace).reverse

/-- The `superscript` extension's `tokenizer(src)`: the anchored pattern
`/^\^([^^]+)\^/`.  The greedy class `[^^]+` matches the maximal non-empty
run of non-caret characters after the opening caret; the run must be
followed by a closing caret, and the trimmed run is the token `text`. -/
def superscriptTokenize (src : String) : Option ExtToken :=
  match src.data with
  | [] => none
  | c :: rest =>
      if c = '^' then
        let inner := rest.takeWhile (fun x => x ≠ '^')
        if inner = [] then none
        else if (rest.dropWhile (fun x => x ≠ '^')).head? = some '^' then
          some { type := "superscript",
                 raw := String.mk ('^' :: inner ++ ['^']),
                 text := String.mk (trimChars inner) }
        else none
      else none

/-- The `subscript` extension's `tokenizer(src)`: the anchored pattern
`/^~([^~]+)~/`, built exactly like the superscript rule with `~` as the
marker. -/
def subscriptTokenize (src : String) : Option ExtToken :=
  match src.data with
  | [] => none
  | c :: rest =>
      if c = '~' then
        let inner := rest.takeWhile (fun x => x ≠ '~')
        if inner = [] then none
        else if (rest.dropWhile (fun x => x ≠ '~')).head? = some '~' then
          some { type := "subscript",
                 raw := String.mk ('~' :: inner ++ ['~']),
                 text := String.mk (trimChars inner) }
        else none
      else none

/-! ### Line-ending normalization

The component computes
`normalizedMarkdown = markdownText.replace(/\r\n|\r/g, "\n")` and feeds it to
`marked.lexer`.  The global replace scans left to right, preferring the
`\r\n` alternative at each position. -/

/-- The global replace `/\r\n|\r/g → "\n"` on the character list of the
source string: at each position, a `\r\n` pair or a lone `\r` becomes a
single `\n`; every other character is copied. -/
def normalizeEol : List Char → List Char
  | [] => []
  | '\r' :: '\n' :: rest => '\n' :: normalizeEol rest
  | '\r' :: rest => '\n' :: normalizeEol rest
  | c :: rest => c :: normalizeEol rest

/-- The component's `normalizedMarkdown` value. -/
def normalizedMarkdown (markdownText : String) : String :=
  String.mk (normalizeEol markdownText.data)

/-- The component's `tokens` value: the external `marked.lexer` (treated as an
opaque function) applied to the normalized source. -/
def tokensFor (lexer : String → List Token) (markdownText : String) : List Token :=
  lexer (normalizedMarkdown markdownText)

/-- One line-terminator convention of a source file. -/
inductive Eol where
  | lf
  | cr
  | crlf
deriving Repr, DecidableEq

/-- The character sequence of a line terminator. -/
def Eol.chars : Eol → List Char
  | .lf => ['\n']
  | .cr => ['\r']
  | .crlf => ['\r', '\n']

/-- A source text assembled from terminator-free lines under a single
line-ending convention. -/
def joinLines : List (List Char) → Eol → List Char
  | [], _ => []
  | [l], _ => l
  | l :: ls, e => l ++ e.chars ++ joinLines ls e

/-! ### Claim theorems -/

/-- C1: refuted at the claim's own example input.  A document holding a
paragraph and a `table` token with a null `header` raises a build-time
exception, but the exception is raised while `MarkdownParser` computes the
`ErrorBoundary` element's children, so it escapes the component instead of
being caught: the output is the propagated exception, not the single
fallback error message node the claim requires. -/
theorem c1_no_fallback_on_build_exception :
    renderDocTokens [Token.paragraph [Token.text "hi" none], Token.table none []] =
      .error () ∧
    markdownParser [Token.paragraph [Token.text "hi" none], Token.table none []] =
      .error () ∧
    markdownParser [Token.paragraph [Token.text "hi" none], Token.table none []] ≠
      .ok (.textN .errorText [.str "Error rendering Markdown"]) := by
  refine ⟨?_, ?_, ?_⟩ <;>
    simp [markdownParser, renderDocTokens, renderToken, renderInlineTokens]

/-- C2: the superscript recognizer tokenizes left-greedily: `^abc^` yields a
superscript token with text `abc`; on `^abc^def^` the match rule consumes
only the first caret pair (`^abc^`), leaving `def^` as trailing input for
the standard inline handling; and every successful match captures the
leftmost non-empty caret-free run after the opening caret, closed by a
caret, with the token fields determined by that run. -/
theorem c2_superscript_left_greedy :
    superscriptTokenize "^abc^" =
      some { type := "superscript", raw := "^abc^", text := "abc" } ∧
    superscriptTokenize "^abc^def^" =
      some { type := "superscript", raw := "^abc^", text := "abc" } ∧
    "^abc^def^".data.drop "^abc^".length = "def^".data ∧
    (∀ src tok, superscriptTokenize src = some tok →
      ∃ inner rest, src.data = '^' :: (inner ++ '^' :: rest) ∧
        inner ≠ [] ∧ ¬ '^' ∈ inner ∧
        inner = src.data.tail.takeWhile (fun x => x ≠ '^') ∧
        tok = ExtToken.mk "superscript" (String.mk ('^' :: inner ++ ['^']))
                (String.mk (trimChars inner))) := by
  refine ⟨by decide, by decide, by decide, ?_⟩
  intro src tok h
  unfold superscriptTokenize at h
  split at h
  · simp at h
  case _ c rest heq =>
    by_cases hc : c = '^'
    · subst hc
      rw [if_pos rfl] at h
      by_cases hemp : rest.takeWhile (fun x => x ≠ '^') = []
      · rw [if_pos hemp] at h; simp at h
      · rw [if_neg hemp] at h
        by_cases hhd : (rest.dropWhile (fun x => x ≠ '^')).head? = some '^'
        · rw [if_pos hhd] at h
          obtain ⟨d, ds, hds⟩ : ∃ d ds, rest.dropWhile (fun x => x ≠ '^') = d :: ds := by
            cases hdw : rest.dropWhile (fun x => x ≠ '^') with
            | nil => rw [hdw] at hhd; simp at hhd
            | cons d ds => exact ⟨d, ds, rfl⟩
          have hdh : d = '^' := by rw [hds] at hhd; simpa using hhd
          subst hdh
          have htok : tok = ExtToken.mk "superscript"
              (String.mk ('^' :: rest.takeWhile (fun x => x ≠ '^') ++ ['^']))
              (String.mk (trimChars (rest.takeWhile (fun x => x ≠ '^')))) :=
            ((Option.some.injEq _ _).mp h).symm
          have hsplit : rest.takeWhile (fun x => (x ≠ '^' : Bool)) ++ '^' :: ds = rest := by
            have h2 := List.takeWhile_append_dropWhile (p := fun x => decide (x ≠ '^')) (l := rest)
            rw [hds] at h2
            exact h2
          refine ⟨rest.takeWhile (fun x => x ≠ '^'), ds, ?_, hemp, ?_, ?_, htok⟩
          · exact heq.trans (congrArg (List.cons '^') hsplit.symm)
          · intro hmem
            have h3 := List.mem_takeWhile_imp hmem
            simp at h3
          · rw [heq]
            rfl
        · rw [if_neg hhd] at h; simp at h
    · rw [if_neg hc] at h; simp at h

/-- C2 witness: the general left-greedy decomposition instantiated on the
ambiguous input `^abc^def^`. -/
theorem c2_superscript_left_greedy_witness :
    ∃ inner rest, ("^abc^def^" : String).data = '^' :: (inner ++ '^' :: rest) ∧
      inner ≠ [] ∧ ¬ '^' ∈ inner ∧
      inner = ("^abc^def^" : String).data.tail.takeWhile (fun x => x ≠ '^') ∧
      ({ type := "superscript", raw := "^abc^", text := "abc" } : ExtToken) =
        ExtToken.mk "superscript" (String.mk ('^' :: inner ++ ['^']))
          (String.mk (trimChars inner)) :=
  c2_superscript_left_greedy.2.2.2 "^abc^def^"
    { type := "superscript", raw := "^abc^", text := "abc" } (by decide)

/-- C10: the subscript recognizer's match rule fails on every input that
begins with two tildes, because the captured inner run must be non-empty and
tilde-free; a GFM strikethrough span `~~text~~` therefore yields no
subscript token from this extension. -/
theorem c10_subscript_rejects_double_tilde (src : String) (rest : List Char)
    (h : src.data = '~' :: '~' :: rest) :
    subscriptTokenize src = none := by
  unfold subscriptTokenize
  rw [h]
  simp [List.takeWhile]

/-- C10 witness: the strikethrough-shaped input `~~text~~` yields no
subscript token. -/
theorem c10_subscript_rejects_double_tilde_witness :
    subscriptTokenize "~~text~~" = none :=
  c10_subscript_rejects_double_tilde "~~text~~" "text~~".data (by decide)

/-- C6: a token of a kind outside the dispatch table contributes no output
node: the document build equals the build of the same sequence with that
token removed, the component output is unchanged, the build does not fail on
the unknown token itself, and the diagnostic of the `default` branch is
emitted for it while all sibling tokens render intact. -/
theorem c6_unknown_token_skipped (xs ys : List Token) (ty : String) :
    renderDocTokens (xs ++ Token.unknown ty :: ys) = renderDocTokens (xs ++ ys) ∧
    markdownParser (xs ++ Token.unknown ty :: ys) = markdownParser (xs ++ ys) ∧
    renderToken (Token.unknown ty) = .ok none ∧
    warnDoc (xs ++ Token.unknown ty :: ys) =
      warnDoc xs ++ ("Unsupported token type: " ++ ty) :: warnDoc ys := by
  have hdoc : renderDocTokens (xs ++ Token.unknown ty :: ys) = renderDocTokens (xs ++ ys) := by
    induction xs with
    | nil =>
        cases hr : renderDocTokens ys <;>
          simp [renderDocTokens, renderToken, hr]
    | cons x xs ih =>
        cases hx : renderToken x <;>
          simp [renderDocTokens, hx, ih]
  have hwarn : warnDoc (xs ++ Token.unknown ty :: ys) =
      warnDoc xs ++ ("Unsupported token type: " ++ ty) :: warnDoc ys := by
    clear hdoc
    induction xs with
    | nil => simp [warnDoc, warnToken]
    | cons x xs ih => simp [warnDoc, ih]
  exact ⟨hdoc, by simp [markdownParser, hdoc], by simp [renderToken], hwarn⟩

/-- C8: inline-run composition flattens children into one ordered fragment
sequence: a `text` child that carries child tokens is expanded in place (its
rendered children are spliced into the sequence), a `text` child without
child tokens contributes its literal, and every other child contributes the
fragments of its own `renderToken` result, in order. -/
theorem c8_inline_run_flattening :
    (∀ txt sub ts ns ms, renderInlineTokens sub = .ok ns → renderInlineTokens ts = .ok ms →
        renderInlineTokens (Token.text txt (some sub) :: ts) = .ok (ns ++ ms)) ∧
    (∀ txt ts ms, renderInlineTokens ts = .ok ms →
        renderInlineTokens (Token.text txt none :: ts) = .ok (RNode.str txt :: ms)) ∧
    (∀ t ts o ms, (∀ txt sub, t ≠ Token.text txt (some sub)) →
        renderToken t = .ok o → renderInlineTokens ts = .ok ms →
        renderInlineTokens (t :: ts) = .ok (o.toList ++ ms)) := by
  refine ⟨?_, ?_, ?_⟩
  · intro txt sub ts ns ms hs ht
    simp [renderInlineTokens, hs, ht]
  · intro txt ts ms ht
    simp [renderInlineTokens, renderToken, ht]
  · intro t ts o ms hnot hr ht
    cases t <;> simp [renderInlineTokens, hr, ht]

/-- C8 witness: a `text` child with nested tokens is expanded in place ahead
of a plain literal sibling. -/
theorem c8_inline_run_flattening_witness :
    renderInlineTokens
        [Token.text "x" (some [Token.strong "b" none]), Token.text "y" none] =
      .ok ([RNode.textN .strong [.str "b"]] ++ [RNode.str "y"]) :=
  c8_inline_run_flattening.1 "x" [Token.strong "b" none] [Token.text "y" none]
    [RNode.textN .strong [.str "b"]] [RNode.str "y"]
    (by simp [renderInlineTokens, renderToken])
    (by simp [renderInlineTokens, renderToken])
/-- Shape of a successful `renderListItems` result: one item container per
item, holding the bullet string, the inline content of the non-list tokens,
and the nested-list views, with the bullet numbering read off the item's
1-based position. -/
theorem renderListItems_ok_spec :
    ∀ (items : List Token) (ordered : Bool) (level idx : Nat) (ns : List RNode),
      renderListItems items ordered level idx = .ok ns →
      ns.length = items.length ∧
      ∀ (n : Nat) (item : Token), items[n]? = some item →
        ∃ inlineContent nested,
          renderInlineTokens ((itemTokens item).filter (fun t => !t.isList)) = .ok inlineContent ∧
          renderNestedLists ((itemTokens item).filter (fun t => t.isList)) level = .ok nested ∧
          ns[n]? = some (RNode.viewN (.listitemContainer (10 * level))
            (RNode.textN .listitem (RNode.str (if ordered then toString (idx + n + 1) ++ ". "
               else if itemTask item then (if itemChecked item then "☑ " else "☐ ") else "• ")
               :: inlineContent) :: nested)) := by
  intro items
  induction items with
  | nil =>
      intro ordered level idx ns h
      simp [renderListItems] at h
      subst h
      exact ⟨rfl, by intro n item hn; simp at hn⟩
  | cons item rest ih =>
      intro ordered level idx ns h
      rw [renderListItems] at h
      cases h1 : renderInlineTokens ((itemTokens item).filter (fun t => !t.isList)) with
      | error e => rw [h1] at h; simp at h
      | ok inl =>
        rw [h1] at h
        cases h2 : renderNestedLists ((itemTokens item).filter (fun t => t.isList)) level with
        | error e => rw [h2] at h; simp at h
        | ok nested =>
          rw [h2] at h
          cases h3 : renderListItems rest ordered level (idx + 1) with
          | error e => rw [h3] at h; simp at h
          | ok tail =>
            rw [h3] at h
            simp at h
            subst h
            obtain ⟨hlen, hspec⟩ := ih ordered level (idx + 1) tail h3
            constructor
            · simp [hlen]
            · intro n itm hn
              cases n with
              | zero =>
                  simp at hn
                  subst hn
                  exact ⟨inl, nested, h1, h2, by simp⟩
              | succ n =>
                  simp at hn
                  obtain ⟨inl2, nested2, g1, g2, g3⟩ := hspec n itm hn
                  refine ⟨inl2, nested2, g1, g2, ?_⟩
                  have e : idx + 1 + n + 1 = idx + (n + 1) + 1 := by omega
                  rw [e] at g3
                  simpa using g3

/-- Shape of a successful `renderNestedLists` result: one `nestedList`
container per nested list token, holding the recursive `renderListItems`
build at `level + 1`. -/
theorem renderNestedLists_ok_spec :
    ∀ (ts : List Token) (level : Nat) (ns : List RNode),
      renderNestedLists ts level = .ok ns →
      ns.length = ts.length ∧
      ∀ (n : Nat) (lt : Token), ts[n]? = some lt →
        ∃ inner, renderListItems (listItemsOf lt) (listOrdered lt) (level + 1) 0 = .ok inner ∧
          ns[n]? = some (RNode.viewN (.nestedList 20) inner) := by
  intro ts
  induction ts with
  | nil =>
      intro level ns h
      simp [renderNestedLists] at h
      subst h
      exact ⟨rfl, by intro n lt hn; simp at hn⟩
  | cons lt rest ih =>
      intro level ns h
      rw [renderNestedLists] at h
      cases h1 : renderListItems (listItemsOf lt) (listOrdered lt) (level + 1) 0 with
      | error e => rw [h1] at h; simp at h
      | ok inner =>
        rw [h1] at h
        cases h2 : renderNestedLists rest level with
        | error e => rw [h2] at h; simp at h
        | ok tail =>
          rw [h2] at h
          simp at h
          subst h
          obtain ⟨hlen, hspec⟩ := ih level tail h2
          refine ⟨by simp [hlen], ?_⟩
          intro n lt' hn
          cases n with
          | zero =>
              simp at hn
              subst hn
              exact ⟨inner, h1, by simp⟩
          | succ n =>
              simp at hn
              obtain ⟨inner2, g1, g2⟩ := hspec n lt' hn
              exact ⟨inner2, g1, by simpa using g2⟩

/-- A successful header-cell render yields exactly one cell node per source
header cell. -/
theorem renderHeaderCells_ok_length :
    ∀ (cs : List (List Token)) (ns : List RNode),
      renderHeaderCells cs = .ok ns → ns.length = cs.length := by
  intro cs
  induction cs with
  | nil => intro ns h; simp [renderHeaderCells] at h; subst h; rfl
  | cons c rest ih =>
      intro ns h
      rw [renderHeaderCells] at h
      cases h1 : renderInlineTokens c with
      | error e => rw [h1] at h; simp at h
      | ok children =>
        rw [h1] at h
        cases h2 : renderHeaderCells rest with
        | error e => rw [h2] at h; simp at h
        | ok tail =>
          rw [h2] at h
          simp at h
          subst h
          simp [ih tail h2]

/-- A successful row-cell render yields exactly one cell node per source
cell, with no padding or truncation. -/
theorem renderRowCells_ok_length :
    ∀ (cs : List (List Token)) (ns : List RNode),
      renderRowCells cs = .ok ns → ns.length = cs.length := by
  intro cs
  induction cs with
  | nil => intro ns h; simp [renderRowCells] at h; subst h; rfl
  | cons c rest ih =>
      intro ns h
      rw [renderRowCells] at h
      cases h1 : renderInlineTokens c with
      | error e => rw [h1] at h; simp at h
      | ok children =>
        rw [h1] at h
        cases h2 : renderRowCells rest with
        | error e => rw [h2] at h; simp at h
        | ok tail =>
          rw [h2] at h
          simp at h
          subst h
          simp [ih tail h2]

/-- Shape of a successful body-row render: one `tableRow` view per source
row in source order, each holding exactly the row's own cells. -/
theorem renderRows_ok_spec :
    ∀ (rs : List (List (List Token))) (ns : List RNode),
      renderRows rs = .ok ns →
      ns.length = rs.length ∧
      ∀ (i : Nat) (row : List (List Token)), rs[i]? = some row →
        ∃ cells, renderRowCells row = .ok cells ∧ cells.length = row.length ∧
          ns[i]? = some (RNode.viewN .tableRow cells) := by
  intro rs
  induction rs with
  | nil =>
      intro ns h
      simp [renderRows] at h
      subst h
      exact ⟨rfl, by intro i row hi; simp at hi⟩
  | cons row rest ih =>
      intro ns h
      rw [renderRows] at h
      cases h1 : renderRowCells row with
      | error e => rw [h1] at h; simp at h
      | ok cells =>
        rw [h1] at h
        cases h2 : renderRows rest with
        | error e => rw [h2] at h; simp at h
        | ok tail =>
          rw [h2] at h
          simp at h
          subst h
          obtain ⟨hlen, hspec⟩ := ih tail h2
          refine ⟨by simp [hlen], ?_⟩
          intro i row' hi
          cases i with
          | zero =>
              simp at hi
              subst hi
              exact ⟨cells, h1, renderRowCells_ok_length row cells h1, by simp⟩
          | succ i =>
              simp at hi
              obtain ⟨cells2, g1, g2, g3⟩ := hspec i row' hi
              exact ⟨cells2, g1, g2, by simpa using g3⟩
/-- C3: the bullet of the item at 1-based position N is `N. ` when the list
is ordered (the position, not any numbering text of the source, which the
renderer never reads — in particular the list's `start` value is ignored),
`☑ `/`☐ ` for checked/unchecked task items of unordered lists, and `• `
otherwise. -/
theorem c3_bullet_prefix_rule :
    (∀ (items : List Token) (ordered : Bool) (level : Nat) (ns : List RNode),
      renderListItems items ordered level 0 = .ok ns →
      ∀ (n : Nat) (item : Token), items[n]? = some item →
        ∃ inlineContent nested,
          ns[n]? = some (RNode.viewN (.listitemContainer (10 * level))
            (RNode.textN .listitem (RNode.str (if ordered then toString (n + 1) ++ ". "
               else if itemTask item then (if itemChecked item then "☑ " else "☐ ") else "• ")
               :: inlineContent) :: nested))) ∧
    (∀ (ordered : Bool) (s s' : Nat) (items : List Token),
      renderToken (Token.list ordered s items) = renderToken (Token.list ordered s' items)) := by
  constructor
  · intro items ordered level ns h n item hn
    obtain ⟨inl, nested, _, _, h3⟩ := (renderListItems_ok_spec items ordered level 0 ns h).2 n item hn
    refine ⟨inl, nested, ?_⟩
    simpa using h3
  · intro ordered s s' items
    simp [renderToken]

/-- C3 witness: an unordered task list; the item at position 1 (its
`checked` field true) renders the `☑ ` bullet at indentation level 0. -/
theorem c3_bullet_prefix_rule_witness :
    ∃ inlineContent nested,
      ([RNode.viewN (.listitemContainer 0) [RNode.textN .listitem [RNode.str "• "]],
        RNode.viewN (.listitemContainer 0) [RNode.textN .listitem [RNode.str "☑ "]],
        RNode.viewN (.listitemContainer 0) [RNode.textN .listitem [RNode.str "☐ "]]] :
          List RNode)[1]? =
        some (RNode.viewN (.listitemContainer (10 * 0))
          (RNode.textN .listitem (RNode.str (if false then toString (1 + 1) ++ ". "
             else if itemTask (Token.listItem true true []) then
               (if itemChecked (Token.listItem true true []) then "☑ " else "☐ ") else "• ")
             :: inlineContent) :: nested)) :=
  c3_bullet_prefix_rule.1
    [Token.listItem false false [], Token.listItem true true [], Token.listItem true false []]
    false 0
    [RNode.viewN (.listitemContainer 0) [RNode.textN .listitem [RNode.str "• "]],
     RNode.viewN (.listitemContainer 0) [RNode.textN .listitem [RNode.str "☑ "]],
     RNode.viewN (.listitemContainer 0) [RNode.textN .listitem [RNode.str "☐ "]]]
    (by simp [renderListItems, renderInlineTokens, renderNestedLists, itemTokens,
              itemTask, itemChecked, Token.isList, List.filter])
    1 (Token.listItem true true []) (by simp)
/-- C4: each list item's tokens are partitioned into nested `list` tokens
and inline content; the non-list tokens render behind the bullet inside one
`listitem` text node, every nested list token is built by recursing at
`level + 1` inside a `nestedList` container, and the doubly-nested
unordered list `- a / - b / - c` renders three nesting levels with strictly
increasing item indentation (0, 10, 20) and the `• ` bullet at every
level. -/
theorem c4_nested_list_partition :
    (∀ (item : Token) (rest : List Token) (ordered : Bool) (level idx : Nat) (ns : List RNode),
      renderListItems (item :: rest) ordered level idx = .ok ns →
      ∃ inlineContent nested tail,
        renderInlineTokens ((itemTokens item).filter (fun t => !t.isList)) = .ok inlineContent ∧
        renderNestedLists ((itemTokens item).filter (fun t => t.isList)) level = .ok nested ∧
        renderListItems rest ordered level (idx + 1) = .ok tail ∧
        ns = RNode.viewN (.listitemContainer (10 * level))
          (RNode.textN .listitem (RNode.str (if ordered then toString (idx + 1) ++ ". "
             else if itemTask item then (if itemChecked item then "☑ " else "☐ ") else "• ")
             :: inlineContent) :: nested) :: tail) ∧
    (∀ (ts : List Token) (level : Nat) (ns : List RNode),
      renderNestedLists ts level = .ok ns →
      ns.length = ts.length ∧
      ∀ (n : Nat) (lt : Token), ts[n]? = some lt →
        ∃ inner, renderListItems (listItemsOf lt) (listOrdered lt) (level + 1) 0 = .ok inner ∧
          ns[n]? = some (RNode.viewN (.nestedList 20) inner)) ∧
    renderToken (Token.list false 0 [Token.listItem false false
        [Token.text "a" (some [Token.text "a" none]),
         Token.list false 0 [Token.listItem false false
           [Token.text "b" (some [Token.text "b" none]),
            Token.list false 0 [Token.listItem false false
              [Token.text "c" (some [Token.text "c" none])]]]]]]) =
      .ok (some (RNode.viewN .list
        [RNode.viewN (.listitemContainer 0)
          [RNode.textN .listitem [RNode.str "• ", RNode.str "a"],
           RNode.viewN (.nestedList 20)
             [RNode.viewN (.listitemContainer 10)
               [RNode.textN .listitem [RNode.str "• ", RNode.str "b"],
                RNode.viewN (.nestedList 20)
                  [RNode.viewN (.listitemContainer 20)
                    [RNode.textN .listitem [RNode.str "• ", RNode.str "c"]]]]]]])) := by
  refine ⟨?_, renderNestedLists_ok_spec, ?_⟩
  · intro item rest ordered level idx ns h
    rw [renderListItems] at h
    cases h1 : renderInlineTokens ((itemTokens item).filter (fun t => !t.isList)) with
    | error e => rw [h1] at h; simp at h
    | ok inl =>
      rw [h1] at h
      cases h2 : renderNestedLists ((itemTokens item).filter (fun t => t.isList)) level with
      | error e => rw [h2] at h; simp at h
      | ok nested =>
        rw [h2] at h
        cases h3 : renderListItems rest ordered level (idx + 1) with
        | error e => rw [h3] at h; simp at h
        | ok tail =>
          rw [h3] at h
          simp at h
          subst h
          exact ⟨inl, nested, tail, rfl, rfl, rfl, rfl⟩
  · simp [renderToken, renderListItems, renderInlineTokens, renderNestedLists,
          itemTokens, itemTask, itemChecked, Token.isList, List.filter,
          listItemsOf, listOrdered]

/-- C4 witness: the partition fact instantiated on an item holding one text
token and one nested list token. -/
theorem c4_nested_list_partition_witness :
    ∃ inlineContent nested tail,
      renderInlineTokens ((itemTokens (Token.listItem false false
          [Token.text "a" none, Token.list false 0 []])).filter (fun t => !t.isList)) =
        .ok inlineContent ∧
      renderNestedLists ((itemTokens (Token.listItem false false
          [Token.text "a" none, Token.list false 0 []])).filter (fun t => t.isList)) 0 =
        .ok nested ∧
      renderListItems [] false 0 (0 + 1) = .ok tail ∧
      ([RNode.viewN (.listitemContainer 0)
          [RNode.textN .listitem [RNode.str "• ", RNode.str "a"],
           RNode.viewN (.nestedList 20) []]] : List RNode) =
        RNode.viewN (.listitemContainer (10 * 0))
          (RNode.textN .listitem (RNode.str (if false then toString (0 + 1) ++ ". "
             else if itemTask (Token.listItem false false
                 [Token.text "a" none, Token.list false 0 []]) then
               (if itemChecked (Token.listItem false false
                   [Token.text "a" none, Token.list false 0 []]) then "☑ " else "☐ ")
             else "• ") :: inlineContent) :: nested) :: tail :=
  c4_nested_list_partition.1
    (Token.listItem false false [Token.text "a" none, Token.list false 0 []]) [] false 0 0
    [RNode.viewN (.listitemContainer 0)
      [RNode.textN .listitem [RNode.str "• ", RNode.str "a"],
       RNode.viewN (.nestedList 20) []]]
    (by simp [renderListItems, renderInlineTokens, renderNestedLists, renderToken,
              itemTokens, itemTask, itemChecked, Token.isList, List.filter,
              listItemsOf, listOrdered])
/-- C5: a built table has exactly one header row followed by one row per
source row in source order; the header row has exactly one cell per header
cell and each body row exactly as many cells as its source row carries —
ragged rows pass through without padding or truncation to the header
width. -/
theorem c5_table_grid (header : List (List Token)) (rows : List (List (List Token)))
    (n : RNode) (h : renderToken (Token.table (some header) rows) = .ok (some n)) :
    ∃ headerCells bodyRows,
      n = RNode.viewN .table (RNode.viewN .tableRow headerCells :: bodyRows) ∧
      headerCells.length = header.length ∧
      bodyRows.length = rows.length ∧
      ∀ (i : Nat) (row : List (List Token)), rows[i]? = some row →
        ∃ cells, bodyRows[i]? = some (RNode.viewN .tableRow cells) ∧
          cells.length = row.length := by
  rw [renderToken] at h
  cases h1 : renderHeaderCells header with
  | error e => rw [h1] at h; simp at h
  | ok headerCells =>
    rw [h1] at h
    cases h2 : renderRows rows with
    | error e => rw [h2] at h; simp at h
    | ok bodyRows =>
      rw [h2] at h
      simp at h
      obtain ⟨hlen, hspec⟩ := renderRows_ok_spec rows bodyRows h2
      refine ⟨headerCells, bodyRows, h.symm, renderHeaderCells_ok_length header headerCells h1,
        hlen, ?_⟩
      intro i row hi
      obtain ⟨cells, _, g2, g3⟩ := hspec i row hi
      exact ⟨cells, g3, g2⟩

/-- C5 witness: a table with a 2-cell header and ragged body rows of 1 and
3 cells builds 1 + 2 rows whose cell counts are exactly 2, 1 and 3. -/
theorem c5_table_grid_witness :
    ∃ headerCells bodyRows,
      RNode.viewN .table
          [RNode.viewN .tableRow [RNode.textN .tableHeaderCell [RNode.str "h1"],
                                  RNode.textN .tableHeaderCell [RNode.str "h2"]],
           RNode.viewN .tableRow [RNode.textN .tableCell [RNode.str "a"]],
           RNode.viewN .tableRow [RNode.textN .tableCell [RNode.str "b"],
                                  RNode.textN .tableCell [RNode.str "c"],
                                  RNode.textN .tableCell [RNode.str "d"]]] =
        RNode.viewN .table (RNode.viewN .tableRow headerCells :: bodyRows) ∧
      headerCells.length = [[Token.text "h1" none], [Token.text "h2" none]].length ∧
      bodyRows.length = [[[Token.text "a" none]],
        [[Token.text "b" none], [Token.text "c" none], [Token.text "d" none]]].length ∧
      ∀ (i : Nat) (row : List (List Token)),
        ([[[Token.text "a" none]],
          [[Token.text "b" none], [Token.text "c" none], [Token.text "d" none]]] :
            List (List (List Token)))[i]? = some row →
        ∃ cells, bodyRows[i]? = some (RNode.viewN .tableRow cells) ∧
          cells.length = row.length :=
  c5_table_grid [[Token.text "h1" none], [Token.text "h2" none]]
    [[[Token.text "a" none]],
     [[Token.text "b" none], [Token.text "c" none], [Token.text "d" none]]]
    (RNode.viewN .table
      [RNode.viewN .tableRow [RNode.textN .tableHeaderCell [RNode.str "h1"],
                              RNode.textN .tableHeaderCell [RNode.str "h2"]],
       RNode.viewN .tableRow [RNode.textN .tableCell [RNode.str "a"]],
       RNode.viewN .tableRow [RNode.textN .tableCell [RNode.str "b"],
                              RNode.textN .tableCell [RNode.str "c"],
                              RNode.textN .tableCell [RNode.str "d"]]])
    (by simp [renderToken, renderHeaderCells, renderRowCells, renderRows, renderInlineTokens])
/-- A character other than carriage return is copied unchanged by the
replace. -/
theorem normalizeEol_cons_ne (c : Char) (t : List Char) (hc : c ≠ '\r') :
    normalizeEol (c :: t) = c :: normalizeEol t := by
  cases t with
  | nil => simp [normalizeEol, hc]
  | cons d t => simp [normalizeEol, hc]

/-- A CRLF pair collapses to a single newline. -/
theorem normalizeEol_crlf (t : List Char) :
    normalizeEol ('\r' :: '\n' :: t) = '\n' :: normalizeEol t := by
  simp [normalizeEol]

/-- A carriage return not followed by a newline becomes a newline. -/
theorem normalizeEol_cr (t : List Char) (h : t.head? ≠ some '\n') :
    normalizeEol ('\r' :: t) = '\n' :: normalizeEol t := by
  cases t with
  | nil => simp [normalizeEol]
  | cons d t =>
      have hd : d ≠ '\n' := by intro he; exact h (by simp [he])
      simp [normalizeEol, hd]

/-- The replace passes over a carriage-return-free prefix unchanged. -/
theorem normalizeEol_clean_append (l x : List Char) (h : ∀ c ∈ l, c ≠ '\r') :
    normalizeEol (l ++ x) = l ++ normalizeEol x := by
  induction l with
  | nil => rfl
  | cons c rest ih =>
      have hc : c ≠ '\r' := h c (by simp)
      have hrest : ∀ a ∈ rest, a ≠ '\r' := fun a hm => h a (by simp [hm])
      rw [List.cons_append, normalizeEol_cons_ne c (rest ++ x) hc, ih hrest]
      simp

/-- A source assembled from newline-free lines under the CR convention
never starts with a newline. -/
theorem joinLines_cr_head_ne_lf (lines : List (List Char))
    (h : ∀ l ∈ lines, ∀ c ∈ l, c ≠ '\n') :
    (joinLines lines Eol.cr).head? ≠ some '\n' := by
  cases lines with
  | nil => simp [joinLines]
  | cons l rest =>
      cases rest with
      | nil =>
          cases l with
          | nil => simp [joinLines]
          | cons c t =>
              have := h (c :: t) (by simp) c (by simp)
              simp [joinLines, this]
      | cons l2 ls =>
          cases l with
          | nil => simp [joinLines, Eol.chars]
          | cons c t =>
              have := h (c :: t) (by simp) c (by simp)
              simp [joinLines, this]

/-- Normalization maps a source assembled under any line-ending convention
to the LF-assembled form. -/
theorem normalizeEol_joinLines :
    ∀ (lines : List (List Char)) (e : Eol),
      (∀ l ∈ lines, ∀ c ∈ l, c ≠ '\r' ∧ c ≠ '\n') →
      normalizeEol (joinLines lines e) = joinLines lines Eol.lf := by
  intro lines
  induction lines with
  | nil => intro e h; rfl
  | cons l rest ih =>
      intro e h
      have hlr : ∀ c ∈ l, c ≠ '\r' := fun c hc => (h l (by simp) c hc).1
      cases rest with
      | nil =>
          show normalizeEol l = l
          have := normalizeEol_clean_append l [] hlr
          simpa [normalizeEol] using this
      | cons l2 ls =>
          have hrest : ∀ m ∈ l2 :: ls, ∀ c ∈ m, c ≠ '\r' ∧ c ≠ '\n' :=
            fun m hm c hc => h m (by simp [hm]) c hc
          have hjoin : joinLines (l :: l2 :: ls) e = l ++ (e.chars ++ joinLines (l2 :: ls) e) := by
            simp [joinLines]
          have hjoinLf :
              joinLines (l :: l2 :: ls) Eol.lf = l ++ ('\n' :: joinLines (l2 :: ls) Eol.lf) := by
            simp [joinLines, Eol.chars]
          rw [hjoin, normalizeEol_clean_append l _ hlr, hjoinLf]
          congr 1
          cases e with
          | lf =>
              show normalizeEol ('\n' :: joinLines (l2 :: ls) Eol.lf) = _
              rw [normalizeEol_cons_ne '\n' _ (by decide), ih Eol.lf hrest]
          | crlf =>
              show normalizeEol ('\r' :: '\n' :: joinLines (l2 :: ls) Eol.crlf) = _
              rw [normalizeEol_crlf, ih Eol.crlf hrest]
          | cr =>
              show normalizeEol ('\r' :: joinLines (l2 :: ls) Eol.cr) = _
              rw [normalizeEol_cr _ (joinLines_cr_head_ne_lf (l2 :: ls)
                    (fun m hm c hc => (hrest m hm c hc).2)),
                  ih Eol.cr hrest]

/-- C7: tokenization after line-ending normalization does not depend on the
source's line-ending convention: assembling the same terminator-free lines
under any of the conventions (LF, CR, CRLF) and tokenizing through the
component's normalize-then-lex pipeline yields identical token trees, for
every lexer. -/
theorem c7_line_ending_invariance (lexer : String → List Token)
    (lines : List (List Char)) (e e' : Eol)
    (h : ∀ l ∈ lines, ∀ c ∈ l, c ≠ '\r' ∧ c ≠ '\n') :
    tokensFor lexer (String.mk (joinLines lines e)) =
      tokensFor lexer (String.mk (joinLines lines e')) := by
  show lexer (String.mk (normalizeEol (joinLines lines e))) =
    lexer (String.mk (normalizeEol (joinLines lines e')))
  rw [normalizeEol_joinLines lines e h, normalizeEol_joinLines lines e' h]

/-- C7 witness: the three-line source `a`, empty line, `b` tokenizes
identically under the CRLF and lone-CR conventions. -/
theorem c7_line_ending_invariance_witness :
    tokensFor (fun _ => ([] : List Token)) (String.mk (joinLines [['a'], [], ['b']] Eol.crlf)) =
      tokensFor (fun _ => ([] : List Token)) (String.mk (joinLines [['a'], [], ['b']] Eol.cr)) :=
  c7_line_ending_invariance (fun _ => ([] : List Token)) [['a'], [], ['b']] Eol.crlf Eol.cr
    (by decide)
/-! ### Fuel-indexed interpreter

To certify termination of the mutually recursive build, a fuel-indexed
variant of each builder function is defined by structural recursion on a
`Nat` fuel, returning `none` when the fuel runs out; the agreement theorem
below shows the fuel versions stabilize at the total functions once the fuel
exceeds the termination weight, so every recursive call chain of the build
is finite and bounded by the input's weight. -/

mutual

/-- Fuel-indexed `renderToken`. -/
def renderTokenF : Nat → Token → Option (Except Unit (Option RNode))
  | 0, _ => none
  | fuel + 1, t =>
    match t with
    | .heading depth tokens =>
        match renderInlineTokensF fuel tokens with
        | none => none
        | some (.error e) => some (.error e)
        | some (.ok children) =>
            some (.ok (some (.textN (.heading (headingFontSize depth)) children)))
    | .paragraph tokens =>
        match renderInlineTokensF fuel tokens with
        | none => none
        | some (.error e) => some (.error e)
        | some (.ok children) => some (.ok (some (.textN .paragraph children)))
    | .text txt _ => some (.ok (some (.str txt)))
    | .strong txt tokens =>
        match renderInlineTokensF fuel (tokens.getD [Token.text txt none]) with
        | none => none
        | some (.error e) => some (.error e)
        | some (.ok children) => some (.ok (some (.textN .strong children)))
    | .em txt tokens =>
        match renderInlineTokensF fuel (tokens.getD [Token.text txt none]) with
        | none => none
        | some (.error e) => some (.error e)
        | some (.ok children) => some (.ok (some (.textN .em children)))
    | .del txt tokens =>
        match renderInlineTokensF fuel (tokens.getD [Token.text txt none]) with
        | none => none
        | some (.error e) => some (.error e)
        | some (.ok children) => some (.ok (some (.textN .del children)))
    | .codespan txt => some (.ok (some (.textN .codespan [.str txt])))
    | .link href txt tokens =>
        match renderInlineTokensF fuel (tokens.getD [Token.text txt none]) with
        | none => none
        | some (.error e) => some (.error e)
        | some (.ok children) => some (.ok (some (.textN (.link href txt) children)))
    | .image href txt => some (.ok (some (.imageN href txt)))
    | .video href => some (.ok (some (.viewN .videoBox [.videoN href])))
    | .blockquote tokens =>
        match renderInlineTokensF fuel tokens with
        | none => none
        | some (.error e) => some (.error e)
        | some (.ok children) => some (.ok (some (.viewN .blockquote children)))
    | .list ordered _ items =>
        match renderListItemsF fuel items ordered 0 0 with
        | none => none
        | some (.error e) => some (.error e)
        | some (.ok children) => some (.ok (some (.viewN .list children)))
    | .table none _ => some (.error ())
    | .table (some header) rows =>
        match renderHeaderCellsF fuel header with
        | none => none
        | some (.error e) => some (.error e)
        | some (.ok headerCells) =>
          match renderRowsF fuel rows with
          | none => none
          | some (.error e) => some (.error e)
          | some (.ok bodyRows) =>
              some (.ok (some (.viewN .table (.viewN .tableRow headerCells :: bodyRows))))
    | .code txt => some (.ok (some (.viewN .codeBlock [.textN .codeText [.str txt]])))
    | .hr => some (.ok (some (.viewN .hr [])))
    | .br => some (.ok (some (.viewN .br [])))
    | .space => some (.ok (some (.viewN .space [])))
    | .footnote txt =>
        some (.ok (some (.textN .footnote [.str "[", .str txt, .str "]"])))
    | .superscript txt => some (.ok (some (.textN .superscript [.str txt])))
    | .subscript txt => some (.ok (some (.textN .subscript [.str txt])))
    | .listItem _ _ _ => some (.ok none)
    | .unknown _ => some (.ok none)

/-- Fuel-indexed `renderInlineTokens`. -/
def renderInlineTokensF : Nat → List Token → Option (Except Unit (List RNode))
  | 0, _ => none
  | fuel + 1, ts =>
    match ts with
    | [] => some (.ok [])
    | .text txt (some sub) :: rest =>
        match renderInlineTokensF fuel sub with
        | none => none
        | some (.error e) => some (.error e)
        | some (.ok head) =>
          match renderInlineTokensF fuel rest with
          | none => none
          | some (.error e) => some (.error e)
          | some (.ok tail) => some (.ok (head ++ tail))
    | t :: rest =>
        match renderTokenF fuel t with
        | none => none
        | some (.error e) => some (.error e)
        | some (.ok o) =>
          match renderInlineTokensF fuel rest with
          | none => none
          | some (.error e) => some (.error e)
          | some (.ok tail) => some (.ok (o.toList ++ tail))

/-- Fuel-indexed `renderListItems`. -/
def renderListItemsF : Nat → List Token → Bool → Nat → Nat → Option (Except Unit (List RNode))
  | 0, _, _, _, _ => none
  | fuel + 1, items, ordered, level, idx =>
    match items with
    | [] => some (.ok [])
    | item :: rest =>
        let bullet :=
          if ordered then toString (idx + 1) ++ ". "
          else if itemTask item then (if itemChecked item then "☑ " else "☐ ")
          else "• "
        match renderInlineTokensF fuel ((itemTokens item).filter (fun t => !t.isList)) with
        | none => none
        | some (.error e) => some (.error e)
        | some (.ok inlineContent) =>
          match renderNestedListsF fuel ((itemTokens item).filter (fun t => t.isList)) level with
          | none => none
          | some (.error e) => some (.error e)
          | some (.ok nested) =>
            match renderListItemsF fuel rest ordered level (idx + 1) with
            | none => none
            | some (.error e) => some (.error e)
            | some (.ok tail) =>
                some (.ok (.viewN (.listitemContainer (10 * level))
                  (.textN .listitem (.str bullet :: inlineContent) :: nested) :: tail))

/-- Fuel-indexed `renderNestedLists`. -/
def renderNestedListsF : Nat → List Token → Nat → Option (Except Unit (List RNode))
  | 0, _, _ => none
  | fuel + 1, ts, level =>
    match ts with
    | [] => some (.ok [])
    | listToken :: rest =>
        match renderListItemsF fuel (listItemsOf listToken) (listOrdered listToken) (level + 1) 0 with
        | none => none
        | some (.error e) => some (.error e)
        | some (.ok inner) =>
          match renderNestedListsF fuel rest level with
          | none => none
          | some (.error e) => some (.error e)
          | some (.ok tail) => some (.ok (.viewN (.nestedList 20) inner :: tail))

/-- Fuel-indexed `renderHeaderCells`. -/
def renderHeaderCellsF : Nat → List (List Token) → Option (Except Unit (List RNode))
  | 0, _ => none
  | fuel + 1, cs =>
    match cs with
    | [] => some (.ok [])
    | cell :: cells =>
        match renderInlineTokensF fuel cell with
        | none => none
        | some (.error e) => some (.error e)
        | some (.ok children) =>
          match renderHeaderCellsF fuel cells with
          | none => none
          | some (.error e) => some (.error e)
          | some (.ok tail) => some (.ok (.textN .tableHeaderCell children :: tail))

/-- Fuel-indexed `renderRowCells`. -/
def renderRowCellsF : Nat → List (List Token) → Option (Except Unit (List RNode))
  | 0, _ => none
  | fuel + 1, cs =>
    match cs with
    | [] => some (.ok [])
    | cell :: cells =>
        match renderInlineTokensF fuel cell with
        | none => none
        | some (.error e) => some (.error e)
        | some (.ok children) =>
          match renderRowCellsF fuel cells with
          | none => none
          | some (.error e) => some (.error e)
          | some (.ok tail) => some (.ok (.textN .tableCell children :: tail))

/-- Fuel-indexed `renderRows`. -/
def renderRowsF : Nat → List (List (List Token)) → Option (Except Unit (List RNode))
  | 0, _ => none
  | fuel + 1, rs =>
    match rs with
    | [] => some (.ok [])
    | row :: rows =>
        match renderRowCellsF fuel row with
        | none => none
        | some (.error e) => some (.error e)
        | some (.ok cells) =>
          match renderRowsF fuel rows with
          | none => none
          | some (.error e) => some (.error e)
          | some (.ok tail) => some (.ok (.viewN .tableRow cells :: tail))

end

/-- Fuel-indexed `renderDocTokens`. -/
def renderDocTokensF : Nat → List Token → Option (Except Unit (List RNode))
  | 0, _ => none
  | fuel + 1, ts =>
    match ts with
    | [] => some (.ok [])
    | t :: rest =>
        match renderTokenF fuel t with
        | none => none
        | some (.error e) => some (.error e)
        | some (.ok o) =>
          match renderDocTokensF fuel rest with
          | none => none
          | some (.error e) => some (.error e)
          | some (.ok tail) => some (.ok (o.toList ++ tail))
/-- Agreement of the fuel-indexed interpreter with the total build: once the
fuel exceeds the termination weight of the input, each fuel-indexed builder
returns its total counterpart's result, by induction on the fuel. -/
theorem renderF_agree : ∀ fuel : Nat,
    (∀ t : Token, Token.w t < fuel → renderTokenF fuel t = some (renderToken t)) ∧
    (∀ ts : List Token, wList ts < fuel →
        renderInlineTokensF fuel ts = some (renderInlineTokens ts)) ∧
    (∀ (items : List Token) (ordered : Bool) (level idx : Nat), wList items < fuel →
        renderListItemsF fuel items ordered level idx =
          some (renderListItems items ordered level idx)) ∧
    (∀ (ts : List Token) (level : Nat), wList ts < fuel →
        renderNestedListsF fuel ts level = some (renderNestedLists ts level)) ∧
    (∀ cs : List (List Token), wCells cs < fuel →
        renderHeaderCellsF fuel cs = some (renderHeaderCells cs)) ∧
    (∀ cs : List (List Token), wCells cs < fuel →
        renderRowCellsF fuel cs = some (renderRowCells cs)) ∧
    (∀ rs : List (List (List Token)), wRows rs < fuel →
        renderRowsF fuel rs = some (renderRows rs)) := by
  intro fuel
  induction fuel with
  | zero =>
      exact ⟨fun _ h => absurd h (Nat.not_lt_zero _),
             fun _ h => absurd h (Nat.not_lt_zero _),
             fun _ _ _ _ h => absurd h (Nat.not_lt_zero _),
             fun _ _ h => absurd h (Nat.not_lt_zero _),
             fun _ h => absurd h (Nat.not_lt_zero _),
             fun _ h => absurd h (Nat.not_lt_zero _),
             fun _ h => absurd h (Nat.not_lt_zero _)⟩
  | succ fuel ih =>
      obtain ⟨ih1, ih2, ih3, ih4, ih5, ih6, ih7⟩ := ih
      refine ⟨?_, ?_, ?_, ?_, ?_, ?_, ?_⟩
      · intro t h
        cases t with
        | heading depth tokens =>
            have hb : wList tokens < fuel := by simp [Token.w] at h; omega
            cases hr : renderInlineTokens tokens <;>
              simp [renderTokenF, renderToken, ih2 tokens hb, hr]
        | paragraph tokens =>
            have hb : wList tokens < fuel := by simp [Token.w] at h; omega
            cases hr : renderInlineTokens tokens <;>
              simp [renderTokenF, renderToken, ih2 tokens hb, hr]
        | text txt tokens => simp [renderTokenF, renderToken]
        | strong txt tokens =>
            have hb : wList (tokens.getD [Token.text txt none]) < fuel := by
              cases tokens <;> simp [Token.w, wOpt, wList, Option.getD] at h ⊢ <;> omega
            cases hr : renderInlineTokens (tokens.getD [Token.text txt none]) <;>
              simp [renderTokenF, renderToken, ih2 _ hb, hr]
        | em txt tokens =>
            have hb : wList (tokens.getD [Token.text txt none]) < fuel := by
              cases tokens <;> simp [Token.w, wOpt, wList, Option.getD] at h ⊢ <;> omega
            cases hr : renderInlineTokens (tokens.getD [Token.text txt none]) <;>
              simp [renderTokenF, renderToken, ih2 _ hb, hr]
        | del txt tokens =>
            have hb : wList (tokens.getD [Token.text txt none]) < fuel := by
              cases tokens <;> simp [Token.w, wOpt, wList, Option.getD] at h ⊢ <;> omega
            cases hr : renderInlineTokens (tokens.getD [Token.text txt none]) <;>
              simp [renderTokenF, renderToken, ih2 _ hb, hr]
        | codespan txt => simp [renderTokenF, renderToken]
        | link href txt tokens =>
            have hb : wList (tokens.getD [Token.text txt none]) < fuel := by
              cases tokens <;> simp [Token.w, wOpt, wList, Option.getD] at h ⊢ <;> omega
            cases hr : renderInlineTokens (tokens.getD [Token.text txt none]) <;>
              simp [renderTokenF, renderToken, ih2 _ hb, hr]
        | image href txt => simp [renderTokenF, renderToken]
        | video href => simp [renderTokenF, renderToken]
        | blockquote tokens =>
            have hb : wList tokens < fuel := by simp [Token.w] at h; omega
            cases hr : renderInlineTokens tokens <;>
              simp [renderTokenF, renderToken, ih2 tokens hb, hr]
        | list ordered s items =>
            have hb : wList items < fuel := by simp [Token.w] at h; omega
            cases hr : renderListItems items ordered 0 0 <;>
              simp [renderTokenF, renderToken, ih3 items ordered 0 0 hb, hr]
        | listItem task checked tokens => simp [renderTokenF, renderToken]
        | table header rows =>
            cases header with
            | none => simp [renderTokenF, renderToken]
            | some hdr =>
                have hb1 : wCells hdr < fuel := by
                  simp [Token.w, wOptCells] at h; omega
                have hb2 : wRows rows < fuel := by
                  simp [Token.w, wOptCells] at h; omega
                cases hr1 : renderHeaderCells hdr <;>
                  cases hr2 : renderRows rows <;>
                  simp [renderTokenF, renderToken, ih5 hdr hb1, ih7 rows hb2, hr1, hr2]
        | code txt => simp [renderTokenF, renderToken]
        | hr => simp [renderTokenF, renderToken]
        | br => simp [renderTokenF, renderToken]
        | space => simp [renderTokenF, renderToken]
        | footnote txt => simp [renderTokenF, renderToken]
        | superscript txt => simp [renderTokenF, renderToken]
        | subscript txt => simp [renderTokenF, renderToken]
        | unknown ty => simp [renderTokenF, renderToken]
      · intro ts h
        cases ts with
        | nil => simp [renderInlineTokensF, renderInlineTokens]
        | cons t rest =>
            have hb2 : wList rest < fuel := by simp [wList] at h; omega
            by_cases htext : ∃ txt sub, t = Token.text txt (some sub)
            · obtain ⟨txt, sub, rfl⟩ := htext
              have hbs : wList sub < fuel := by
                simp [wList, Token.w, wOpt] at h; omega
              cases h1 : renderInlineTokens sub <;>
                cases h2 : renderInlineTokens rest <;>
                simp [renderInlineTokensF, renderInlineTokens, ih2 sub hbs,
                      ih2 rest hb2, h1, h2]
            · have hb1 : Token.w t < fuel := by simp [wList] at h; omega
              have hnot : ∀ txt sub, t ≠ Token.text txt (some sub) :=
                fun txt sub he => htext ⟨txt, sub, he⟩
              cases h1 : renderToken t <;>
                cases h2 : renderInlineTokens rest <;>
                simp [renderInlineTokensF, renderInlineTokens, ih1 t hb1,
                      ih2 rest hb2, h1, h2]
      · intro items ordered level idx h
        cases items with
        | nil => simp [renderListItemsF, renderListItems]
        | cons item rest =>
            have hbc : wList ((itemTokens item).filter (fun t => !t.isList)) < fuel := by
              have g1 := wList_filter_le (fun t => !t.isList) (itemTokens item)
              have g2 := wList_itemTokens_lt item
              simp [wList] at h
              omega
            have hbn : wList ((itemTokens item).filter (fun t => t.isList)) < fuel := by
              have g1 := wList_filter_le (fun t => t.isList) (itemTokens item)
              have g2 := wList_itemTokens_lt item
              simp [wList] at h
              omega
            have hbr : wList rest < fuel := by simp [wList] at h; omega
            cases h1 : renderInlineTokens ((itemTokens item).filter (fun t => !t.isList)) <;>
              cases h2 : renderNestedLists ((itemTokens item).filter (fun t => t.isList)) level <;>
              cases h3 : renderListItems rest ordered level (idx + 1) <;>
              simp [renderListItemsF, renderListItems, ih2 _ hbc, ih4 _ level hbn,
                    ih3 rest ordered level (idx + 1) hbr, h1, h2, h3]
      · intro ts level h
        cases ts with
        | nil => simp [renderNestedListsF, renderNestedLists]
        | cons lt rest =>
            have hb1 : wList (listItemsOf lt) < fuel := by
              have g := wList_listItemsOf_lt lt
              simp [wList] at h
              omega
            have hb2 : wList rest < fuel := by simp [wList] at h; omega
            cases h1 : renderListItems (listItemsOf lt) (listOrdered lt) (level + 1) 0 <;>
              cases h2 : renderNestedLists rest level <;>
              simp [renderNestedListsF, renderNestedLists,
                    ih3 (listItemsOf lt) (listOrdered lt) (level + 1) 0 hb1,
                    ih4 rest level hb2, h1, h2]
      · intro cs h
        cases cs with
        | nil => simp [renderHeaderCellsF, renderHeaderCells]
        | cons c rest =>
            have hb1 : wList c < fuel := by simp [wCells] at h; omega
            have hb2 : wCells rest < fuel := by simp [wCells] at h; omega
            cases h1 : renderInlineTokens c <;>
              cases h2 : renderHeaderCells rest <;>
              simp [renderHeaderCellsF, renderHeaderCells, ih2 c hb1, ih5 rest hb2, h1, h2]
      · intro cs h
        cases cs with
        | nil => simp [renderRowCellsF, renderRowCells]
        | cons c rest =>
            have hb1 : wList c < fuel := by simp [wCells] at h; omega
            have hb2 : wCells rest < fuel := by simp [wCells] at h; omega
            cases h1 : renderInlineTokens c <;>
              cases h2 : renderRowCells rest <;>
              simp [renderRowCellsF, renderRowCells, ih2 c hb1, ih6 rest hb2, h1, h2]
      · intro rs h
        cases rs with
        | nil => simp [renderRowsF, renderRows]
        | cons row rest =>
            have hb1 : wCells row < fuel := by simp [wRows] at h; omega
            have hb2 : wRows rest < fuel := by simp [wRows] at h; omega
            cases h1 : renderRowCells row <;>
              cases h2 : renderRows rest <;>
              simp [renderRowsF, renderRows, ih6 row hb1, ih7 rest hb2, h1, h2]
/-- The document-level fuel interpreter agrees with the total document build
once the fuel exceeds the document weight. -/
theorem renderDocTokensF_agree : ∀ (ts : List Token) (fuel : Nat), wList ts < fuel →
    renderDocTokensF fuel ts = some (renderDocTokens ts) := by
  intro ts
  induction ts with
  | nil =>
      intro fuel h
      cases fuel with
      | zero => omega
      | succ f => simp [renderDocTokensF, renderDocTokens]
  | cons t rest ih =>
      intro fuel h
      cases fuel with
      | zero => omega
      | succ f =>
          have hb1 : Token.w t < f := by simp [wList] at h; omega
          have hb2 : wList rest < f := by simp [wList] at h; omega
          cases h1 : renderToken t <;>
            cases h2 : renderDocTokens rest <;>
            simp [renderDocTokensF, renderDocTokens, (renderF_agree f).1 t hb1,
                  ih f hb2, h1, h2]

/-- C9: the mutually recursive render-tree build terminates on every finite
token tree, however deep the nesting: the fuel-indexed interpreter, which
spends one fuel unit per recursive call and gives up at zero, already
stabilizes at the total build's result with fuel bounded by the input
tree's weight — every recursive call descends to strictly smaller weight,
so no call chain is longer than the input bound. -/
theorem c9_build_terminates (tokens : List Token) :
    renderDocTokensF (wList tokens + 1) tokens = some (renderDocTokens tokens) :=
  renderDocTokensF_agree tokens (wList tokens + 1) (Nat.lt_succ_self _)
